import Mathlib

/-!
# Forefront Toolkit — `DataCollection` core: shallow embedding and verification

This file embeds the `DataCollection` class of `src/core/data_collection.js`
(together with the two date-conversion helpers of
`src/utilities/date_utilities.js` that it calls) and proves/refutes the
frozen specification claims about it.

Modelling conventions:
* JavaScript numbers are modelled exactly, as scaled decimal integers
  (`Dec`, value `m / 10^k`) extended with `NaN` and the two infinities
  (`JNum`).  Every number the embedded program manipulates (decimal string
  literals, integer millisecond timestamps, the defaults `0`, `-1`, `1`)
  is a terminating decimal, so this representation is exact; binary
  floating-point rounding and overflow are not modelled.
* JavaScript values reaching the embedded code are primitives:
  `undefined`, `null`, booleans, numbers and strings (`JsVal`).
* JavaScript `Map` objects are modelled as insertion-ordered association
  lists (`JsMap`); `Map.prototype.set` overwrites in place, and iteration
  (`forEach`) follows insertion order, exactly as in the ECMAScript
  specification.
* Array sorting (`Array.prototype.sort`) is modelled with the stable
  `List.mergeSort`, placing `a` before `b` when the comparator returns a
  value `≤ 0` (ES2019 requires a stable sort).
-/

/-- An exact decimal number: the value `m / 10^k`. -/
structure Dec where
  m : Int
  k : Nat
deriving DecidableEq, Repr

namespace Dec

def ofInt (n : Int) : Dec := ⟨n, 0⟩

/-- Exact `<` on decimals (cross-multiplied integer comparison). -/
def ltb (a b : Dec) : Bool := decide (a.m * (10 : Int) ^ b.k < b.m * (10 : Int) ^ a.k)

def sub (a b : Dec) : Dec :=
  ⟨a.m * (10 : Int) ^ b.k - b.m * (10 : Int) ^ a.k, a.k + b.k⟩

def mulInt (n : Int) (a : Dec) : Dec := ⟨n * a.m, a.k⟩

/-- The sign of a decimal, as an integer in `{-1, 0, 1}`. -/
def sgn (a : Dec) : Int := Int.sign a.m

end Dec

/-- A JavaScript number: an exact finite decimal, an infinity, or `NaN`. -/
inductive JNum where
  | fin (d : Dec)
  | posInf
  | negInf
  | nan
deriving DecidableEq, Repr

namespace JNum

def isFin : JNum → Bool
  | .fin _ => true
  | _ => false

def isNaN : JNum → Bool
  | .nan => true
  | _ => false

/-- JavaScript `<` on two numbers (`false` whenever an operand is `NaN`). -/
def ltb : JNum → JNum → Bool
  | .nan, _ => false
  | _, .nan => false
  | .fin a, .fin b => a.ltb b
  | .fin _, .posInf => true
  | .fin _, .negInf => false
  | .posInf, _ => false
  | .negInf, .negInf => false
  | .negInf, _ => true

def sub : JNum → JNum → JNum
  | .fin a, .fin b => .fin (a.sub b)
  | .nan, _ => .nan
  | _, .nan => .nan
  | .posInf, .posInf => .nan
  | .posInf, _ => .posInf
  | .negInf, .negInf => .nan
  | .negInf, _ => .negInf
  | .fin _, .posInf => .negInf
  | .fin _, .negInf => .posInf

def mulInt (n : Int) : JNum → JNum
  | .fin a => .fin (a.mulInt n)
  | .nan => .nan
  | .posInf => if n > 0 then .posInf else if n < 0 then .negInf else .nan
  | .negInf => if n > 0 then .negInf else if n < 0 then .posInf else .nan

/-- Sign of a JavaScript number; `NaN` is mapped to `0` (the sort
comparator treats a `NaN` result like `0`: neither argument precedes). -/
def sgn : JNum → Int
  | .fin d => d.sgn
  | .posInf => 1
  | .negInf => -1
  | .nan => 0

end JNum

/-- A JavaScript primitive value, as seen by the `DataCollection` code. -/
inductive JsVal where
  | undefined
  | jsNull
  | bool (b : Bool)
  | num (n : JNum)
  | str (s : String)
deriving DecidableEq, Repr

/-- Decimal digit character for `d < 10`. -/
def digitCh (d : Nat) : Char := Char.ofNat (48 + d)

/-- Digits accumulator (`fuel` bounds the recursion depth; `fuel = n`
always suffices since `n / 10 < n` for `n ≥ 10`). -/
def natCharsAux : Nat → Nat → List Char
  | 0, n => [digitCh n]
  | fuel + 1, n =>
    if n < 10 then [digitCh n]
    else natCharsAux fuel (n / 10) ++ [digitCh (n % 10)]

/-- The decimal digits of a natural number, most significant first. -/
def natChars (n : Nat) : List Char := natCharsAux n n

/-- Strip trailing zeros of the fractional part (`m` divisible by 10 while
`k > 0`), normalising `m / 10^k` to its shortest decimal form — matching
JavaScript's shortest-round-trip number printing on terminating decimals. -/
def decCanonAux : Int → Nat → Dec
  | m, 0 => ⟨m, 0⟩
  | m, k + 1 => if m % 10 == 0 then decCanonAux (m / 10) k else ⟨m, k + 1⟩

def decCanon (d : Dec) : Dec := decCanonAux d.m d.k

/-- Render an exact decimal the way JavaScript prints the corresponding
number (`String(x)`): shortest decimal digits, `-` sign, a leading `0`
before the decimal point.  (Scientific notation, used by JavaScript only
for magnitudes ≥ 1e21 or < 1e-6, is not modelled; no such value occurs in
the embedded program.) -/
def decToString (d0 : Dec) : String :=
  let d := decCanon d0
  let digits := natChars d.m.natAbs
  let body :=
    if d.k == 0 then digits
    else if digits.length ≤ d.k then
      ['0', '.'] ++ List.replicate (d.k - digits.length) '0' ++ digits
    else
      digits.take (digits.length - d.k) ++ ['.'] ++ digits.drop (digits.length - d.k)
  String.mk (if d.m < 0 then '-' :: body else body)

/-- JavaScript `String(v)` on a primitive value. -/
def jsToString : JsVal → String
  | .undefined => "undefined"
  | .jsNull => "null"
  | .bool b => cond b "true" "false"
  | .num (.fin d) => decToString d
  | .num .nan => "NaN"
  | .num .posInf => "Infinity"
  | .num .negInf => "-Infinity"
  | .str s => s

/-- JavaScript truthiness of a primitive value. -/
def jsTruthy : JsVal → Bool
  | .undefined => false
  | .jsNull => false
  | .bool b => b
  | .num (.fin d) => !(d.m == 0)
  | .num .nan => false
  | .num .posInf => true
  | .num .negInf => true
  | .str s => !(s == "")

/-! ## String-to-number conversion (decimal subset of ECMAScript)

`toNumberStr` models the `ToNumber` coercion on strings (full-string
numeric literal, empty/whitespace-only string is `0`); `parseFloatStr`
models `parseFloat` (longest numeric prefix after leading whitespace).
Hexadecimal/octal/binary literals are not modelled; no such literal occurs
in the embedded program or the claims. -/

/-- The whitespace characters recognised by the model (JavaScript also
trims some rarer Unicode spaces; none occurs in the embedded program). -/
def jsWS (c : Char) : Bool := c == ' ' || c == '\t' || c == '\n' || c == '\r'

def digitsVal (cs : List Char) : Nat :=
  cs.foldl (fun a c => a * 10 + (c.toNat - 48)) 0

/-- Parse an unsigned decimal literal (`digits [. digits] [exponent]` or
`. digits [exponent]`) as a longest prefix; returns the value and the rest. -/
def parseUDec (cs : List Char) : Option (Dec × List Char) :=
  let intD := cs.takeWhile Char.isDigit
  let r1 := cs.dropWhile Char.isDigit
  let (fracD, r2) :=
    match r1 with
    | '.' :: r => (r.takeWhile Char.isDigit, r.dropWhile Char.isDigit)
    | _ => ([], r1)
  let consumedDot : Bool := match r1 with | '.' :: _ => true | _ => false
  if intD.isEmpty && fracD.isEmpty then none
  else
    let m : Int := (digitsVal (intD ++ fracD) : Int)
    let k : Nat := fracD.length
    let rest := if consumedDot then r2 else r1
    -- optional exponent part: e/E, optional sign, at least one digit
    let tryExp : Option (Int × List Char) :=
      match rest with
      | e :: r3 =>
        if e == 'e' || e == 'E' then
          let (eneg, r4) :=
            match r3 with
            | '-' :: r => (true, r)
            | '+' :: r => (false, r)
            | r => (false, r)
          let eD := r4.takeWhile Char.isDigit
          if eD.isEmpty then none
          else some ((if eneg then -(digitsVal eD : Int) else (digitsVal eD : Int)),
                     r4.dropWhile Char.isDigit)
        else none
      | [] => none
    match tryExp with
    | some (e, r5) =>
      if e ≥ (k : Int) then some (⟨m * (10 : Int) ^ (e - k).toNat, 0⟩, r5)
      else some (⟨m, ((k : Int) - e).toNat⟩, r5)
    | none => some (⟨m, k⟩, rest)

def parseSign : List Char → (Bool × List Char)
  | '-' :: r => (true, r)
  | '+' :: r => (false, r)
  | r => (false, r)

def applySign (neg : Bool) (d : Dec) : Dec := if neg then ⟨-d.m, d.k⟩ else d

/-- `ToNumber` on a string. -/
def toNumberStr (s : String) : JNum :=
  let cs := ((s.toList.dropWhile jsWS).reverse.dropWhile jsWS).reverse
  if cs.isEmpty then .fin ⟨0, 0⟩
  else
    let (neg, r) := parseSign cs
    if r == "Infinity".toList then (if neg then .negInf else .posInf)
    else
      match parseUDec r with
      | some (d, []) => .fin (applySign neg d)
      | _ => .nan

/-- `parseFloat` on a string. -/
def parseFloatStr (s : String) : JNum :=
  let cs := s.toList.dropWhile jsWS
  let (neg, r) := parseSign cs
  if "Infinity".toList.isPrefixOf r then (if neg then .negInf else .posInf)
  else
    match parseUDec r with
    | some (d, _) => .fin (applySign neg d)
    | none => .nan

/-- `ToNumber` on a primitive value. -/
def toNumberVal : JsVal → JNum
  | .undefined => .nan
  | .jsNull => .fin ⟨0, 0⟩
  | .bool b => .fin ⟨cond b 1 0, 0⟩
  | .num n => n
  | .str s => toNumberStr s

/-- `parseFloat(v)` (which stringifies its argument first).  For a number
argument, re-parsing the printed form returns the same numeric value. -/
def parseFloatVal : JsVal → JNum
  | .num n => n
  | v => parseFloatStr (jsToString v)

/-- Code-unit lexicographic `<` on strings (as lists of characters). -/
def strLtB : List Char → List Char → Bool
  | [], [] => false
  | [], _ :: _ => true
  | _ :: _, [] => false
  | a :: as, b :: bs => if a < b then true else if b < a then false else strLtB as bs

/-- The ECMAScript abstract relational comparison `a < b` on primitives:
string/string compares code units lexicographically; otherwise both sides
are coerced with `ToNumber` and any `NaN` makes the comparison `false`. -/
def jsLtB : JsVal → JsVal → Bool
  | .str s, .str t => strLtB s.toList t.toList
  | a, b => (toNumberVal a).ltb (toNumberVal b)

/-! ## The regular expressions of the embedded program

Each pattern is compiled by hand into a backtracking matcher in
"prioritised list of `(matched, rest)` alternatives" style: alternatives
appear in the order the ECMAScript regex engine would try them (greedy
quantifiers first), so `List.head?` of the alternatives at the leftmost
matching position is exactly the regex match. -/

/-- Alternatives for `\d{1,2}` (greedy: two digits preferred). -/
def d12R : List Char → List (List Char × List Char)
  | a :: b :: r =>
    if a.isDigit && b.isDigit then [([a, b], r), ([a], b :: r)]
    else if a.isDigit then [([a], b :: r)] else []
  | [a] => if a.isDigit then [([a], [])] else []
  | [] => []

/-- Consume exactly `n` digits. -/
def takeExactDigits : Nat → List Char → Option (List Char × List Char)
  | 0, cs => some ([], cs)
  | n + 1, c :: cs =>
    if c.isDigit then (takeExactDigits n cs).map (fun p => (c :: p.1, p.2)) else none
  | _ + 1, [] => none

/-- Alternatives for `\d{4}`. -/
def exact4R (cs : List Char) : List (List Char × List Char) :=
  match takeExactDigits 4 cs with
  | some p => [p]
  | none => []

/-- Alternatives for a literal character. -/
def litR (c : Char) : List Char → List (List Char × List Char)
  | c' :: r => if c' == c then [([c], r)] else []
  | [] => []

/-- Alternatives for `\s{0,1}` (greedy: consuming preferred). -/
def ws01R : List Char → List (List Char × List Char)
  | c :: r => if jsWS c then [([c], r), ([], c :: r)] else [([], c :: r)]
  | [] => [([], [])]

/-- Sequential composition of matchers, preserving priority order. -/
def seqR (xs : List (List Char × List Char))
    (f : List Char → List (List Char × List Char)) : List (List Char × List Char) :=
  xs.flatMap fun p => (f p.2).map fun q => (p.1 ++ q.1, q.2)

/-- `\d{1,2}\/\d{1,2}\/\d{4}` — the mandatory core of the Data Collection's
`euDateTimeRegExp` (`/\d{1,2}\/\d{1,2}\/\d{4}\s{0,1}:{0,1}\d{0,2}:{0,1}\d{0,2}:{0,1}\d{0,2}/`):
every part after `\d{4}` is optional and can match the empty string, so the
pattern has a match iff this core has one (the program only ever uses this
regex as a boolean test). -/
def euCoreR (cs : List Char) : List (List Char × List Char) :=
  seqR (seqR (seqR (seqR (d12R cs) (litR '/')) d12R) (litR '/')) exact4R

/-- `\d{1,2}\s{0,1}\/\s{0,1}\d{1,2}\s{0,1}\/\s{0,1}\d{4}` —
`euDateFormatRegex` of `convertEuDateInIsoDate`. -/
def euFullR (cs : List Char) : List (List Char × List Char) :=
  seqR (seqR (seqR (seqR (seqR (seqR (seqR (seqR
    (d12R cs) ws01R) (litR '/')) ws01R) d12R) ws01R) (litR '/')) ws01R) exact4R

/-- `\d{1,2}:\d{1,2}:\d{1,2}`. -/
def timeR (cs : List Char) : List (List Char × List Char) :=
  seqR (seqR (seqR (seqR (d12R cs) (litR ':')) d12R) (litR ':')) d12R

/-- `\d{4}-\d{1,2}-\d{1,2}` — `isoDateFormatRegex`. -/
def isoCoreR (cs : List Char) : List (List Char × List Char) :=
  seqR (seqR (seqR (seqR (exact4R cs) (litR '-')) d12R) (litR '-')) d12R

/-- `\d{4}-\d{1,2}-\d{1,2}T\d{1,2}:\d{1,2}:\d{1,2}` — `isoDateTimeFormatRegex`. -/
def isoDateTimeR (cs : List Char) : List (List Char × List Char) :=
  seqR (seqR (isoCoreR cs) (litR 'T')) timeR

/-- `euDateTimeFormatRegex` of `convertEuDateInIsoDate`, which contains a
literal `s` between the year and the time — a typo in the source
(`'...\\d{4}s\\d{1,2}:...'`), reproduced faithfully here. -/
def euDateTimeTypoR (cs : List Char) : List (List Char × List Char) :=
  seqR (seqR (euFullR cs) (litR 's')) timeR

/-- First (leftmost, then highest-priority) match of a pattern in a string. -/
def scanFirstR (f : List Char → List (List Char × List Char)) :
    List Char → Option (List Char)
  | [] => (f []).head?.map (·.1)
  | c :: cs =>
    match (f (c :: cs)).head? with
    | some p => some p.1
    | none => scanFirstR f cs

/-- `RegExp.prototype.test` / boolean use of `String.prototype.match`. -/
def scanTestR (f : List Char → List (List Char × List Char)) (cs : List Char) : Bool :=
  (scanFirstR f cs).isSome

/-- Boolean test of the Data Collection's `euDateTimeRegExp` against
`String(v)` (the program always coerces with `String(...)` or lets
`RegExp.test` coerce). -/
def euTest (s : String) : Bool := scanTestR euCoreR s.toList

/-! ## `date_utilities.js`: EU/ISO date conversion -/

/-- `String.prototype.split('-')` on a list of characters. -/
def splitOnDash : List Char → List (List Char)
  | [] => [[]]
  | c :: r =>
    if c == '-' then [] :: splitOnDash r
    else
      match splitOnDash r with
      | t :: ts => (c :: t) :: ts
      | [] => [[c]]

/-- One step of `String.prototype.split(/ {0,}\/ {0,}/)`: try to match the
separator (any spaces, a `/`, any spaces) at the current position. -/
def trySepSlashSp (cs : List Char) : Option (List Char) :=
  match cs.dropWhile (· == ' ') with
  | '/' :: r => some (r.dropWhile (· == ' '))
  | _ => none

/-- `String.prototype.split(/ {0,}\/ {0,}/)`: scan left to right, splitting
at each leftmost separator match (the separator always contains the `/`,
so it never matches the empty string). -/
def splitSlashSpAux : Nat → List Char → List Char → List (List Char) → List (List Char)
  | 0, _, cur, acc => acc ++ [cur.reverse]
  | fuel + 1, cs, cur, acc =>
    match trySepSlashSp cs with
    | some rest => splitSlashSpAux fuel rest [] (acc ++ [cur.reverse])
    | none =>
      match cs with
      | [] => acc ++ [cur.reverse]
      | c :: r => splitSlashSpAux fuel r (c :: cur) acc

def splitSlashSp (cs : List Char) : List (List Char) :=
  splitSlashSpAux (cs.length + 1) cs [] []

/-- `convertIsoDateInEuDate(isoDateString, spaced, lineBreak)`
(`src/utilities/date_utilities.js`).  The argument is a `JsVal` because
`_parseDataPoint` passes the raw data point; `RegExp.prototype.test`
coerces it with `ToString`.  (`String.prototype.match` inside the guarded
branches is only reached when the test succeeded, which forces the value
to be a string — no non-string rendering contains `\d{4}-\d{1,2}-\d{1,2}`.) -/
def convertIsoDateInEuDate (isoDateString : JsVal) (spaced : String) (lineBreak : Bool) :
    String :=
  let cs := (jsToString isoDateString).toList
  let datePart : List Char :=
    match scanFirstR isoCoreR cs with
    | some matched =>
      -- let arrayIsoDate = isoDate[0].split('-')  (isoDate[0] is never empty here)
      let arr := splitOnDash matched
      let a0 := arr.getD 0 []
      let a1 := arr.getD 1 []
      let a2 := arr.getD 2 []
      if spaced == "spaced" then a2 ++ " / ".toList ++ a1 ++ " / ".toList ++ a0
      else a2 ++ '/' :: a1 ++ '/' :: a0
    | none => []
  let timePart : List Char :=
    if scanTestR isoDateTimeR cs then
      match scanFirstR timeR cs with
      | some t => (if lineBreak then "<br />".toList else [' ']) ++ t
      -- `isoTime[0] ? ... : ' -:-:-'`: a date-time match implies a time match,
      -- so this branch is unreachable; it mirrors the source's falsy branch.
      | none => " -:-:-".toList
    else []
  String.mk (datePart ++ timePart)

/-- `convertEuDateInIsoDate(euDateString)` (`src/utilities/date_utilities.js`).
The time branch is guarded by `euDateTimeFormatRegex`, whose pattern
contains a literal `s` between year and time (a typo in the source), and
appends `'T' + extractedTime` where `extractedTime` is the match array —
JavaScript stringifies the one-element array to its single element. -/
def convertEuDateInIsoDate (euDateString : String) : String :=
  let cs := euDateString.toList
  let datePart : List Char :=
    match scanFirstR euFullR cs with
    | some matched =>
      let arr := splitSlashSp matched
      let a0 := arr.getD 0 []
      let a1 := arr.getD 1 []
      let a2 := arr.getD 2 []
      a2 ++ '-' :: a1 ++ '-' :: a0
    | none => []
  let timePart : List Char :=
    if scanTestR euDateTimeTypoR cs then
      match scanFirstR timeR cs with
      | some t => 'T' :: t
      | none => []
    else []
  String.mk (datePart ++ timePart)

/-! ## `Date.parse` (ISO-like date strings)

Model of `Date.parse` for the strings this program feeds it (the output of
`convertEuDateInIsoDate`): `YYYY-M[M]-D[D]`, optionally followed by
`TH[H]:M[M]:S[S]`.  Out-of-range calendar components yield `NaN`.  The
model evaluates every string in UTC (a fixed host time-zone offset of 0);
only the relative order of timestamps matters to the embedded program. -/

def isLeapYear (y : Int) : Bool :=
  (y % 4 == 0 && y % 100 != 0) || y % 400 == 0

def daysInMonth (y : Int) (m : Nat) : Nat :=
  if m == 2 then (if isLeapYear y then 29 else 28)
  else if m == 4 || m == 6 || m == 9 || m == 11 then 30
  else 31

/-- Days from the civil epoch 1970-01-01 (proleptic Gregorian). -/
def daysFromCivil (y0 : Int) (m d : Nat) : Int :=
  let y : Int := y0 - (if m ≤ 2 then 1 else 0)
  let era : Int := (if y ≥ 0 then y else y - 399) / 400
  let yoe : Int := y - era * 400
  let mp : Int := ((m : Int) + 9) % 12
  let doy : Int := (153 * mp + 2) / 5 + (d : Int) - 1
  let doe : Int := yoe * 365 + yoe / 4 - yoe / 100 + doy
  era * 146097 + doe - 719468

/-- Parse `H[H]:M[M]:S[S]` to seconds. -/
def parseTimePart (cs : List Char) : Option Nat :=
  let hD := cs.takeWhile Char.isDigit
  let r1 := cs.dropWhile Char.isDigit
  match r1 with
  | ':' :: r2 =>
    let mD := r2.takeWhile Char.isDigit
    let r3 := r2.dropWhile Char.isDigit
    match r3 with
    | ':' :: r4 =>
      let sD := r4.takeWhile Char.isDigit
      let r5 := r4.dropWhile Char.isDigit
      if r5.isEmpty && !hD.isEmpty && hD.length ≤ 2 && !mD.isEmpty && mD.length ≤ 2
          && !sD.isEmpty && sD.length ≤ 2 then
        let h := digitsVal hD
        let mi := digitsVal mD
        let se := digitsVal sD
        if h < 24 && mi < 60 && se < 60 then some (h * 3600 + mi * 60 + se) else none
      else none
    | _ => none
  | _ => none

/-- `Date.parse` on the date strings produced by `convertEuDateInIsoDate`;
anything else is `NaN`. -/
def jsDateParse (s : String) : JNum :=
  let cs := ((s.toList.dropWhile jsWS).reverse.dropWhile jsWS).reverse
  match takeExactDigits 4 cs with
  | some (yD, '-' :: r1) =>
    let mD := r1.takeWhile Char.isDigit
    let r2 := r1.dropWhile Char.isDigit
    match r2 with
    | '-' :: r3 =>
      let dD := r3.takeWhile Char.isDigit
      let r4 := r3.dropWhile Char.isDigit
      let timeSecs : Option Nat :=
        match r4 with
        | [] => some 0
        | 'T' :: r5 => parseTimePart r5
        | _ => none
      match timeSecs with
      | some secs =>
        if !mD.isEmpty && mD.length ≤ 2 && !dD.isEmpty && dD.length ≤ 2 then
          let y : Int := (digitsVal yD : Int)
          let mo := digitsVal mD
          let d := digitsVal dD
          if 1 ≤ mo && mo ≤ 12 && 1 ≤ d && d ≤ daysInMonth y mo then
            .fin ⟨(daysFromCivil y mo d) * 86400000 + (secs : Int) * 1000, 0⟩
          else .nan
        else .nan
      | none => .nan
    | _ => .nan
  | _ => .nan

/-! ## `data_collection.js`: the `DataCollection` class -/

/-- A JavaScript `Map`, as an insertion-ordered association list. -/
abbrev JsMap (K V : Type) := List (K × V)

/-- `Map.prototype.get` (returns `undefined`, i.e. `none`, when absent). -/
def JsMap.getm [BEq K] (m : JsMap K V) (k : K) : Option V :=
  (m.find? (fun p => p.1 == k)).map (·.2)

/-- `Map.prototype.set`: overwrite in place if the key exists (keeping its
insertion position), otherwise append. -/
def JsMap.setm [BEq K] (m : JsMap K V) (k : K) (v : V) : JsMap K V :=
  if m.any (fun p => p.1 == k) then m.map (fun p => if p.1 == k then (k, v) else p)
  else m ++ [(k, v)]

/-- A parsed record: one cell per registered variable, in ordinal order. -/
abbrev Row := List JsVal

/-- A raw record: a plain object, i.e. a key/value mapping. -/
abbrev RawRec := JsMap String JsVal

/-- One entry of the data model handed to the `DataCollection` constructor.
String-valued properties may be absent (`none`); JavaScript truthiness
additionally treats the empty string as absent. -/
structure Variable where
  uid : Option String := none
  sourceField : Option String := none
  dataType : Option String := none
  defaultOrder : Option String := none
deriving DecidableEq, Repr

/-- JavaScript truthiness on an optional string property. -/
def strTruthy? : Option String → Option String
  | some s => if s == "" then none else some s
  | none => none

/-- The `this.variables.maps` bundle of `Map` objects. -/
structure VarMaps where
  uids : JsMap String String
  reverseUids : JsMap String String
  index : JsMap String Nat
  reverseIndex : JsMap Nat String
  types : JsMap String String
  sorting : JsMap String String
  filtering : JsMap String String
  defaultOrder : JsMap String String
deriving DecidableEq, Repr

def emptyMaps : VarMaps := ⟨[], [], [], [], [], [], [], []⟩

/-- `Array.prototype.includes` compares with SameValueZero; every element
of `this.variables.list` is an object, and the probe is a string, so the
comparison is `false` for every element.  (This is the broken duplicate
check of `_createVariablesMaps`.) -/
def variableEqString (_v : Variable) (_s : String) : Bool := false

/-- The loop body of `_createVariablesMaps`, iterating the data model in
declaration order with its numeric index (the maps start out empty in the
constructor). -/
def createVariablesMapsGo (list : List Variable) :
    Nat → List Variable → VarMaps → Except String VarMaps
  | _, [], m => .ok m
  | i, v :: rest, m =>
    let variableUID := (strTruthy? v.uid).getD ("var_uid_" ++ toString i)
    if list.any (fun w => variableEqString w variableUID) then
      .error ("Data Collection Error: " ++ variableUID ++
        " already exists. Please, provide another unique UID.")
    else
      match strTruthy? v.sourceField with
      | some sourceField =>
        let rawDefaultOrder := (strTruthy? v.defaultOrder).getD "none"
        let defOrder :=
          if rawDefaultOrder != "" && (rawDefaultOrder == "asc" || rawDefaultOrder == "ascending")
          then "asc"
          else if rawDefaultOrder != "" && (rawDefaultOrder == "desc" || rawDefaultOrder == "descending")
          then "desc"
          else "none"
        let m' : VarMaps :=
          { uids := m.uids.setm variableUID sourceField
            reverseUids := m.reverseUids.setm sourceField variableUID
            index := m.index.setm variableUID i
            reverseIndex := m.reverseIndex.setm i variableUID
            types := m.types.setm variableUID ((strTruthy? v.dataType).getD "text")
            defaultOrder := m.defaultOrder.setm variableUID defOrder
            sorting := m.sorting.setm variableUID "none"
            filtering := m.filtering.setm variableUID "" }
        createVariablesMapsGo list (i + 1) rest m'
      | none =>
        .error "Data Collection Error: one or more variable names and/or source fields are missing."

/-- `DataCollection._createVariablesMaps()`, run on a freshly constructed
collection (all maps empty). -/
def createVariablesMaps (dataModel : List Variable) : Except String VarMaps :=
  createVariablesMapsGo dataModel 0 dataModel emptyMaps

/-- `DataCollection._parseDataPoint(dataPoint, variableType)`. -/
def parseDataPoint (dataPoint : JsVal) (variableType : String) : JsVal :=
  -- Stringify boolean values
  let dp := match dataPoint with
    | .bool b => .str (cond b "true" "false")
    | v => v
  if jsTruthy dp then
    if variableType == "eu_date" then
      if euTest (jsToString dp) then dp
      else .str (convertIsoDateInEuDate dp "no-space" true)
    else dp
  else
    if variableType == "number" then .num (.fin ⟨0, 0⟩)
    else if variableType == "boolean" then .str "false"
    else .str "-"

/-- Property access `dataPoint[variable]` on a raw record. -/
def objGet (r : RawRec) (k : String) : JsVal := (r.getm k).getD .undefined

/-- A missing argument (`undefined`) triggers the JavaScript default
parameter value. -/
def jsArgOr (v : JsVal) (d : JsVal) : JsVal := if v == .undefined then d else v

/-- `DataCollection._parseRecords(rawData)`: one row per raw record, one
cell per entry of `maps.uids` (in registration order); the cell's raw value
is pulled at the variable's `sourceField`, its type looked up in
`maps.types` (a missing lookup result is `undefined`, which selects
`_parseDataPoint`'s default `'text'`). -/
def parseRecords (maps : VarMaps) (rawData : List RawRec) : List Row :=
  if rawData.length > 0 then
    rawData.map fun dataPoint =>
      maps.uids.map fun p =>
        let variableType := (maps.types.getm p.1).getD "text"
        parseDataPoint (jsArgOr (objGet dataPoint p.2) (.str "")) variableType
  else []

/-- The mutable state of a `DataCollection` instance. -/
structure DataCollection where
  maps : VarMaps
  dataSet : List Row
  temporaryDataSet : List Row
deriving DecidableEq, Repr

/-- `DataCollection.buildDataCollection(rawData)` on a fresh instance:
create the variable maps, then create the data set (the temporary data
set initially mirrors the main data set). -/
def buildDataCollection (dataModel : List Variable) (rawData : List RawRec) :
    Except String DataCollection :=
  (createVariablesMaps dataModel).map fun maps =>
    let ds := if rawData.length > 0 then parseRecords maps rawData else []
    ⟨maps, ds, ds⟩

/-- Array indexing `a[i]` (out of range gives `undefined`). -/
def rowCell (r : Row) (i : Nat) : JsVal := (r.get? i).getD .undefined

/-- The comparator closure of `DataCollection.sortRecords`, applied to the
two cells `a[variableIndex]`, `b[variableIndex]`. -/
def sortComparator (order : Int) (a0 b0 : JsVal) : JNum :=
  let a1 := if a0 == .undefined || a0 == .jsNull then .str "" else a0
  let b1 := if b0 == .undefined || b0 == .jsNull then .str "" else b0
  let bothEu := euTest (jsToString a1) && euTest (jsToString b1)
  let a2 := if bothEu then .num (jsDateParse (convertEuDateInIsoDate (jsToString a1))) else a1
  let b2 := if bothEu then .num (jsDateParse (convertEuDateInIsoDate (jsToString b1))) else b1
  if !(parseFloatVal a2).isNaN && (toNumberVal a2).isFin
      && !(parseFloatVal b2).isNaN && (toNumberVal b2).isFin then
    -- numeric comparison: `order * (dataPointA - dataPointB)` on the
    -- `parseFloat`-converted values
    JNum.mulInt order ((parseFloatVal a2).sub (parseFloatVal b2))
  else if a2 != .undefined && b2 != .undefined then
    if jsLtB a2 b2 then .fin ⟨order * (-1), 0⟩
    else if jsLtB b2 a2 then .fin ⟨order * 1, 0⟩
    else .fin ⟨0, 0⟩
  else .fin ⟨0, 0⟩

/-- `Array.prototype.sort(cmp)` places `a` before `b` when the comparator
does not return a value `> 0` (a `NaN` comparator result, like `0`, leaves
the pair unordered; the sort is stable). -/
def rowLe (order : Int) (idx : Nat) (a b : Row) : Bool :=
  !(JNum.ltb (.fin ⟨0, 0⟩) (sortComparator order (rowCell a idx) (rowCell b idx)))

/-- The `forEach` loop of `DataCollection.sortRecords` over the `sorting`
map: each non-`'none'` entry sorts the accumulated array in place.
`variableIndex` is `this.variables.maps.index.get(variableUID)` when
`variableUID` is truthy (`-1` otherwise); the guard
`variableUID && variableIndex > -1` fails — throwing
`'Error: variable NOT found.'` — exactly when the uid is falsy or the
lookup returned `undefined` (stored indices are naturals, hence `> -1`). -/
def sortRecordsGo (maps : VarMaps) :
    List (String × String) → List Row → Except String (List Row)
  | [], sorted => .ok sorted
  | (variableUID, ordering) :: rest, sorted =>
    if ordering != "none" then
      let variableIndex : Option Nat :=
        if variableUID != "" then maps.index.getm variableUID else none
      let order : Int := if ordering == "desc" || ordering == "descending" then -1 else 1
      match variableIndex with
      | some idx => sortRecordsGo maps rest (sorted.mergeSort (rowLe order idx))
      | none => .error "Error: variable NOT found."
    else sortRecordsGo maps rest sorted

/-- `DataCollection.sortRecords(records)`: copy the argument
(`Object.assign([], records)`), then re-sort the copy once per sorted
variable, iterating the `sorting` map in insertion (= ordinal) order. -/
def sortRecords (maps : VarMaps) (records : List Row) : Except String (List Row) :=
  sortRecordsGo maps maps.sorting records

/-- `String.prototype.includes`. -/
def jsStrIncludes (s sub : String) : Bool := decide (sub.toList <:+: s.toList)

/-- `String.prototype.toLowerCase`, character by character (ASCII-complete;
JavaScript's Unicode case folding beyond ASCII is not exercised by the
embedded program). -/
def jsToLower (s : String) : String := String.mk (s.toList.map Char.toLower)

/-- `v.toString()` — throws a `TypeError` on `undefined`/`null`. -/
def jsToStringChecked : JsVal → Except String String
  | .undefined => .error "TypeError: Cannot read properties of undefined"
  | .jsNull => .error "TypeError: Cannot read properties of null"
  | v => .ok (jsToString v)

/-- `Array.prototype.filter` with a callback that can throw. -/
def filterArr (p : Row → Except String Bool) : List Row → Except String (List Row)
  | [] => .ok []
  | r :: rs => do
    let b ← p r
    let t ← filterArr p rs
    pure (if b then r :: t else t)

/-- The filter predicate of one `forEach` step of
`DataCollection.filterRecords`: stringify `record[variableIndex]`,
lower-case it, and test substring containment of the (lower-cased) filter
text. -/
def filterPred (vi : Option Nat) (value : String) (record : Row) : Except String Bool :=
  let cell := match vi with
    | some i => rowCell record i
    | none => .undefined
  (jsToStringChecked cell).map fun s => jsStrIncludes (jsToLower s) value

/-- The `forEach` loop of `DataCollection.filterRecords` over the
`filtering` map (every entry is applied — an empty filter string is also
run, and keeps every row). -/
def filterRecordsGo (maps : VarMaps) :
    List (String × String) → List Row → Except String (List Row)
  | [], filtered => .ok filtered
  | (variableUID, value) :: rest, filtered => do
    let variableIndex : Option Nat :=
      if variableUID != "" then maps.index.getm variableUID else none
    let filtered' ← filterArr (filterPred variableIndex (jsToLower value)) filtered
    filterRecordsGo maps rest filtered'

/-- `DataCollection.filterRecords(records)`. -/
def filterRecords (maps : VarMaps) (records : List Row) : Except String (List Row) :=
  filterRecordsGo maps maps.filtering records

/-- `DataCollection.removeDataPoints(firstRecordIndex, lastRecordIndex)`
without the `variableUIDs` argument (its branch is guarded by
`variableUIDs && variableUIDs.length > 0`, which is false when the
argument is `undefined`).  Note the source computes
`deleteCount = lastRecordIndex - firstRecordIndex` — NOT `... + 1` — and
replaces a falsy (`0` or missing) `lastRecordIndex` by
`this.dataSet.length - 1`.  After splicing, the temporary data set is
recomputed by sorting and then filtering the new data set. -/
def removeDataPoints (st : DataCollection) (firstRecordIndex : Nat)
    (lastRecordIndex? : Option Nat) : Except String DataCollection :=
  let last : Int := match lastRecordIndex? with
    | some n => if n != 0 then (n : Int) else (st.dataSet.length : Int) - 1
    | none => (st.dataSet.length : Int) - 1
  let deleteCount : Int := last - (firstRecordIndex : Int)
  -- `Array.prototype.splice(start, deleteCount)`: a negative count deletes nothing
  let ds := st.dataSet.take firstRecordIndex ++ st.dataSet.drop (firstRecordIndex + deleteCount.toNat)
  do
    let sorted ← sortRecords st.maps ds
    let filtered ← filterRecords st.maps sorted
    pure { st with dataSet := ds, temporaryDataSet := filtered }

/-- `DataCollection.removeVariable(variableUID)`.  The first statement
after the index lookup is `this.variables.splice(index, 1)`; but
`this.variables` is the plain object `{list, size, maps}`, which has no
`splice` method, so the call throws a `TypeError` before any row or map is
touched (the row loops below it are unreachable — and would `splice`
whole records out of `dataSet`/`temporaryDataSet` rather than remove the
variable's cell from each row). -/
def removeVariable (_st : DataCollection) (_variableUID : String) :
    Except String DataCollection :=
  .error "TypeError: this.variables.splice is not a function"

/-- `DataCollection.loadDataSet(rawData)`.  Its first statement is
`this._resetData()`, but no method `_resetData` exists anywhere in the
class or the repository, so every call throws a `TypeError` before the
collection is touched. -/
def loadDataSet (_st : DataCollection) (_rawData : List RawRec) :
    Except String DataCollection :=
  .error "TypeError: this._resetData is not a function"

/-! ## Reference/heap model for the frame claim

To state that `sortRecords`/`filterRecords` do not mutate their argument,
arrays are given identities: a `Store` holds every live array, and the
methods receive the *reference* of their `records` argument.  Each line of
the source that allocates an array (`Object.assign([], records)`,
`Array.prototype.filter`) allocates here; the in-place
`Array.prototype.sort` writes through the reference being sorted.  All
other refs — in particular the argument — are never written. -/

structure Store where
  arrs : List (List Row)
deriving DecidableEq, Repr

def Store.readA (st : Store) (r : Nat) : List Row := (st.arrs[r]?).getD []

def Store.allocA (st : Store) (v : List Row) : Store × Nat :=
  (⟨st.arrs ++ [v]⟩, st.arrs.length)

def Store.writeA (st : Store) (r : Nat) (v : List Row) : Store := ⟨st.arrs.set r v⟩

/-- The `forEach` loop of `sortRecords`, sorting the array at `ref` in
place once per sorted variable. -/
def sortRecordsRefGo (maps : VarMaps) :
    List (String × String) → Store → Nat → Except String Store
  | [], st, _ => .ok st
  | (variableUID, ordering) :: rest, st, ref =>
    if ordering != "none" then
      let variableIndex : Option Nat :=
        if variableUID != "" then maps.index.getm variableUID else none
      let order : Int := if ordering == "desc" || ordering == "descending" then -1 else 1
      match variableIndex with
      | some idx =>
        sortRecordsRefGo maps rest (st.writeA ref ((st.readA ref).mergeSort (rowLe order idx))) ref
      | none => .error "Error: variable NOT found."
    else sortRecordsRefGo maps rest st ref

/-- `DataCollection.sortRecords(records)` on the heap model:
`let sortedRecords = Object.assign([], records)` allocates a fresh array
copying the argument's elements; all subsequent in-place sorts target that
fresh array; the function returns its reference. -/
def sortRecordsRef (maps : VarMaps) (st : Store) (records : Nat) :
    Except String (Store × Nat) :=
  let alloc := st.allocA (st.readA records)
  (sortRecordsRefGo maps maps.sorting alloc.1 alloc.2).map (fun st' => (st', alloc.2))

/-- The `forEach` loop of `filterRecords`: each step reads the current
array and binds `filteredRecords` to the fresh array returned by
`Array.prototype.filter`. -/
def filterRecordsRefGo (maps : VarMaps) :
    List (String × String) → Store → Nat → Except String (Store × Nat)
  | [], st, ref => .ok (st, ref)
  | (variableUID, value) :: rest, st, ref => do
    let variableIndex : Option Nat :=
      if variableUID != "" then maps.index.getm variableUID else none
    let filtered' ← filterArr (filterPred variableIndex (jsToLower value)) (st.readA ref)
    let alloc := st.allocA filtered'
    filterRecordsRefGo maps rest alloc.1 alloc.2

/-- `DataCollection.filterRecords(records)` on the heap model. -/
def filterRecordsRef (maps : VarMaps) (st : Store) (records : Nat) :
    Except String (Store × Nat) :=
  let alloc := st.allocA (st.readA records)
  filterRecordsRefGo maps maps.filtering alloc.1 alloc.2

/-! ## Concrete fixtures -/

/-- A finite integer as a JavaScript value. -/
def nm (n : Int) : JsVal := .num (.fin ⟨n, 0⟩)

/-- A two-column registry — column `A` at ordinal 0, column `B` at
ordinal 1, both with sort state `'ascending'`, no filters — exactly the
state `_createVariablesMaps` builds for two declarations (`a`, `b`) after
the table layer sets both sort states (`maps.sorting.set(uid, order)`
keeps insertion order). -/
def reg2 : VarMaps :=
  { uids := [("A", "a"), ("B", "b")]
    reverseUids := [("a", "A"), ("b", "B")]
    index := [("A", 0), ("B", 1)]
    reverseIndex := [(0, "A"), (1, "B")]
    types := [("A", "number"), ("B", "number")]
    sorting := [("A", "ascending"), ("B", "ascending")]
    filtering := [("A", ""), ("B", "")]
    defaultOrder := [("A", "none"), ("B", "none")] }

/-- A one-column registry with no active sort or filter. -/
def regOne : VarMaps :=
  { uids := [("A", "a")]
    reverseUids := [("a", "A")]
    index := [("A", 0)]
    reverseIndex := [(0, "A")]
    types := [("A", "text")]
    sorting := [("A", "none")]
    filtering := [("A", "")]
    defaultOrder := [("A", "none")] }

/-- Ten one-cell rows `r0 … r9`. -/
def tenRows : List Row :=
  [[.str "r0"], [.str "r1"], [.str "r2"], [.str "r3"], [.str "r4"],
   [.str "r5"], [.str "r6"], [.str "r7"], [.str "r8"], [.str "r9"]]

/-- A collection holding `tenRows` under `regOne`, with all sort states
 `'none'` and all filters empty. -/
def dcTen : DataCollection := ⟨regOne, tenRows, tenRows⟩

deriving instance DecidableEq for Except

/-! ## C10, C8, C4, C5 -/

/-- Claim C10: the public wholesale-load operation is unusable: for every
collection state and every raw-record argument, `DataCollection.loadDataSet`
throws (its first statement calls `this._resetData()`, a method defined
nowhere in the class or the repository), so it never replaces `dataSet`
and leaves the collection state unchanged: only `buildDataCollection` can
populate the collection. -/
theorem loadDataSet_always_throws (st : DataCollection) (rawData : List RawRec) :
    loadDataSet st rawData = .error "TypeError: this._resetData is not a function" := rfl

/-- Claim C8 (code bug): `DataCollection.removeVariable` never retracts the
column's cells: for every collection state and every variable UID
(registered or not), the call throws a `TypeError` — `this.variables` is a
plain object with no `splice` method — so neither `fullSet` nor `viewSet`
is ever updated (and the unreachable loops below the crash would splice
whole records out of the datasets, not cells out of rows). -/
theorem removeVariable_throws_typeerror (st : DataCollection) (variableUID : String) :
    removeVariable st variableUID = .error "TypeError: this.variables.splice is not a function" := rfl

/-- The eight rows that `removeDataPoints(2, 4)` actually leaves out of
ten: the splice count is `4 - 2 = 2`, so only rows 2 and 3 are deleted. -/
def eightRows : List Row :=
  [[.str "r0"], [.str "r1"], [.str "r4"],
   [.str "r5"], [.str "r6"], [.str "r7"], [.str "r8"], [.str "r9"]]

/-- Claim C4 (code bug): on a 10-row `fullSet` with no active sort/filter,
`removeDataPoints(2, 4)` does **not** delete the inclusive range `[2,4]`:
`deleteCount = lastRecordIndex - firstRecordIndex = 2`, so it deletes only
rows 2 and 3, leaving 8 rows `[0,1,4,5,6,7,8,9]` (the view is recomputed,
but to those same 8 rows) — not the 7 rows `[0,1,5,6,7,8,9]` the claim
requires.  The same method's other branch iterates
`a <= lastRecordIndex` inclusively, showing the off-by-one. -/
theorem removeDataPoints_off_by_one :
    removeDataPoints dcTen 2 (some 4)
      = .ok { dcTen with dataSet := eightRows, temporaryDataSet := eightRows }
    ∧ eightRows.length = 8 := by
  constructor
  · decide
  · rfl

/-- The field-declaration list of claim C5: two declarations sharing the
`sourceField` (source key) `"email"`. -/
def dupEmailModel : List Variable :=
  [{ sourceField := some "email" }, { sourceField := some "email" }]

/-- Claim C5, counterexample: registering two declarations with the same
`sourceKey` `"email"` does **not** fail: `_createVariablesMaps` builds and
returns a registry (its duplicate guard compares the declaration objects
of `this.variables.list` with a UID string via `Array.prototype.includes`,
which is always `false`). -/
theorem createVariablesMaps_duplicate_sourceField_succeeds :
    (createVariablesMaps dupEmailModel).isOk = true := rfl

/-- Claim C5, amended: registering two declarations sharing `sourceKey`
`"email"` silently succeeds and registers *both*: each gets its own
generated UID in `uids` (both mapping to `"email"`), and the reverse map
`reverseUids` ends up mapping `"email"` to the *last* declaration's UID
(`Map.prototype.set` overwrites). -/
theorem createVariablesMaps_duplicate_sourceField_registers_both :
    createVariablesMaps dupEmailModel = .ok
      { uids := [("var_uid_0", "email"), ("var_uid_1", "email")]
        reverseUids := [("email", "var_uid_1")]
        index := [("var_uid_0", 0), ("var_uid_1", 1)]
        reverseIndex := [(0, "var_uid_0"), (1, "var_uid_1")]
        types := [("var_uid_0", "text"), ("var_uid_1", "text")]
        sorting := [("var_uid_0", "none"), ("var_uid_1", "none")]
        filtering := [("var_uid_0", ""), ("var_uid_1", "")]
        defaultOrder := [("var_uid_0", "none"), ("var_uid_1", "none")] } := rfl

/-! ## Matcher lemmas: rests are suffixes; a match needs its literals -/

theorem takeExactDigits_suffix :
    ∀ {n : Nat} {cs t r : List Char}, takeExactDigits n cs = some (t, r) → r <:+ cs := by
  intro n
  induction n with
  | zero => intro cs t r h; simp [takeExactDigits] at h; simp [h.2]
  | succ n ih =>
    intro cs t r h
    cases cs with
    | nil => simp [takeExactDigits] at h
    | cons c cs =>
      simp only [takeExactDigits] at h
      split at h
      · cases hm : takeExactDigits n cs with
        | none => rw [hm] at h; simp at h
        | some p =>
          rw [hm] at h
          simp at h
          obtain ⟨-, h2⟩ := h
          exact (ih (by rw [hm]; rw [← h2])).trans (List.suffix_cons c cs)
      · simp at h

theorem mem_d12R_suffix {cs : List Char} {p : List Char × List Char}
    (h : p ∈ d12R cs) : p.2 <:+ cs := by
  match cs with
  | [] => simp [d12R] at h
  | [a] =>
    simp only [d12R] at h
    split at h <;> simp_all
  | a :: b :: r =>
    simp only [d12R] at h
    split at h
    · rcases List.mem_pair.mp h with h' | h' <;> subst h'
      · exact (List.suffix_cons b r).trans (List.suffix_cons a _)
      · exact List.suffix_cons a _
    · split at h
      · simp at h; subst h; exact List.suffix_cons a _
      · simp at h

theorem mem_exact4R_suffix {cs : List Char} {p : List Char × List Char}
    (h : p ∈ exact4R cs) : p.2 <:+ cs := by
  simp only [exact4R] at h
  split at h
  · simp at h; subst h; exact takeExactDigits_suffix (by assumption)
  · simp at h

theorem mem_litR {c : Char} {cs : List Char} {p : List Char × List Char}
    (h : p ∈ litR c cs) : ∃ r, cs = c :: r ∧ p = ([c], r) := by
  match cs with
  | [] => simp [litR] at h
  | c' :: r =>
    simp only [litR] at h
    split at h
    · simp at h
      rename_i hc
      exact ⟨r, by rw [beq_iff_eq] at hc; rw [hc], by simp [h]⟩
    · simp at h

theorem mem_litR_suffix {c : Char} {cs : List Char} {p : List Char × List Char}
    (h : p ∈ litR c cs) : p.2 <:+ cs := by
  obtain ⟨r, hcs, hp⟩ := mem_litR h
  rw [hcs, hp]
  exact List.suffix_cons c r

theorem mem_ws01R_suffix {cs : List Char} {p : List Char × List Char}
    (h : p ∈ ws01R cs) : p.2 <:+ cs := by
  match cs with
  | [] => simp [ws01R] at h; simp [h]
  | c :: r =>
    simp only [ws01R] at h
    split at h
    · rcases List.mem_pair.mp h with h' | h' <;> subst h'
      · exact List.suffix_cons c r
      · exact List.suffix_rfl
    · simp at h; simp [h]

theorem mem_seqR {xs : List (List Char × List Char)}
    {f : List Char → List (List Char × List Char)} {p : List Char × List Char} :
    p ∈ seqR xs f ↔ ∃ q ∈ xs, ∃ w ∈ f q.2, p = (q.1 ++ w.1, w.2) := by
  simp only [seqR, List.mem_flatMap, List.mem_map]
  constructor
  · rintro ⟨q, hq, w, hw, rfl⟩; exact ⟨q, hq, w, hw, rfl⟩
  · rintro ⟨q, hq, w, hw, rfl⟩; exact ⟨q, hq, w, hw, rfl⟩

theorem mem_seqR_suffix {xs : List (List Char × List Char)}
    {f : List Char → List (List Char × List Char)} {cs : List Char}
    (hxs : ∀ q ∈ xs, q.2 <:+ cs)
    (hf : ∀ r, ∀ w ∈ f r, w.2 <:+ r) :
    ∀ p ∈ seqR xs f, p.2 <:+ cs := by
  intro p hp
  obtain ⟨q, hq, w, hw, rfl⟩ := mem_seqR.mp hp
  exact (hf q.2 w hw).trans (hxs q hq)

theorem mem_euCoreR_suffix {cs : List Char} :
    ∀ p ∈ euCoreR cs, p.2 <:+ cs := by
  unfold euCoreR
  apply mem_seqR_suffix
  apply mem_seqR_suffix
  apply mem_seqR_suffix
  apply mem_seqR_suffix
  · exact fun q hq => mem_d12R_suffix hq
  · exact fun r w hw => mem_litR_suffix hw
  · exact fun r w hw => mem_d12R_suffix hw
  · exact fun r w hw => mem_litR_suffix hw
  · exact fun r w hw => mem_exact4R_suffix hw

/-- A successful `euCoreR` match contains a literal slash. -/
theorem euCoreR_slash {cs : List Char} {p : List Char × List Char}
    (h : p ∈ euCoreR cs) : '/' ∈ cs := by
  unfold euCoreR at h
  obtain ⟨q1, hq1, w1, _, -⟩ := mem_seqR.mp h
  obtain ⟨q2, hq2, w2, _, -⟩ := mem_seqR.mp hq1
  obtain ⟨q3, hq3, w3, hw3, -⟩ := mem_seqR.mp hq2
  obtain ⟨q4, hq4, w4, hw4, -⟩ := mem_seqR.mp hq3
  obtain ⟨r, hr, -⟩ := mem_litR hw4
  have hsfx : q4.2 <:+ cs := mem_d12R_suffix hq4
  exact hsfx.subset (by rw [hr]; exact List.mem_cons_self _ _)

theorem scanFirstR_eq_none {f : List Char → List (List Char × List Char)} {cs : List Char}
    (h : ∀ t, t <:+ cs → f t = []) : scanFirstR f cs = none := by
  induction cs with
  | nil => simp [scanFirstR, h [] List.suffix_rfl]
  | cons c t ih =>
    rw [scanFirstR, h (c :: t) List.suffix_rfl]
    exact ih fun t' ht' => h t' (ht'.trans (List.suffix_cons c t))

/-- A string without a slash never matches the EU date pattern. -/
theorem euTest_eq_false_of_no_slash {s : String} (h : '/' ∉ s.toList) :
    euTest s = false := by
  unfold euTest scanTestR
  rw [scanFirstR_eq_none, Option.isSome_none]
  intro t ht
  by_contra hne
  obtain ⟨p, hp⟩ := List.exists_mem_of_ne_nil _ hne
  exact h (ht.subset (euCoreR_slash hp))

/-! ## Character-set facts about number rendering -/

theorem digitCh_isDigit {d : Nat} (h : d < 10) : (digitCh d).isDigit = true := by
  interval_cases d <;> decide

theorem natCharsAux_all_digits :
    ∀ fuel n : Nat, n ≤ fuel → ∀ c ∈ natCharsAux fuel n, c.isDigit = true := by
  intro fuel
  induction fuel with
  | zero =>
    intro n hn c hc
    simp only [natCharsAux, List.mem_singleton] at hc
    subst hc
    exact digitCh_isDigit (by omega)
  | succ fuel ih =>
    intro n hn c hc
    simp only [natCharsAux] at hc
    split at hc
    · simp at hc; subst hc; exact digitCh_isDigit (by omega)
    · rcases List.mem_append.mp hc with h | h
      · exact ih (n / 10) (by omega) c h
      · simp at h; subst h; exact digitCh_isDigit (Nat.mod_lt _ (by omega))

theorem natChars_all_digits : ∀ n : Nat, ∀ c ∈ natChars n, c.isDigit = true := by
  intro n
  exact natCharsAux_all_digits n n (Nat.le_refl n)

/-- Every character of a printed number is a digit, `-`, `.` or `0`. -/
theorem decToString_charset (d : Dec) :
    ∀ c ∈ (decToString d).toList, c.isDigit = true ∨ c = '-' ∨ c = '.' ∨ c = '0' := by
  intro c hc
  unfold decToString at hc
  simp only [String.toList] at hc
  set e := decCanon d with he
  split at hc
  · rcases List.mem_cons.mp hc with h | h
    · exact Or.inr (Or.inl h)
    · revert h
      split
      · intro h; exact Or.inl (natChars_all_digits _ _ h)
      · split
        · intro h
          rcases List.mem_cons.mp h with h | h
          · exact Or.inr (Or.inr (Or.inr h))
          · rcases List.mem_cons.mp h with h | h
            · exact Or.inr (Or.inr (Or.inl h))
            · rcases List.mem_append.mp h with h | h
              · exact Or.inr (Or.inr (Or.inr (List.eq_of_mem_replicate h)))
              · exact Or.inl (natChars_all_digits _ _ h)
        · intro h
          rcases List.mem_append.mp h with h | h
          · rcases List.mem_append.mp h with h | h
            · exact Or.inl (natChars_all_digits _ _ (List.mem_of_mem_take h))
            · simp at h; exact Or.inr (Or.inr (Or.inl h))
          · exact Or.inl (natChars_all_digits _ _ (List.mem_of_mem_drop h))
  · revert hc
    split
    · intro h; exact Or.inl (natChars_all_digits _ _ h)
    · split
      · intro h
        rcases List.mem_cons.mp h with h | h
        · exact Or.inr (Or.inr (Or.inr h))
        · rcases List.mem_cons.mp h with h | h
          · exact Or.inr (Or.inr (Or.inl h))
          · rcases List.mem_append.mp h with h | h
            · exact Or.inr (Or.inr (Or.inr (List.eq_of_mem_replicate h)))
            · exact Or.inl (natChars_all_digits _ _ h)
      · intro h
        rcases List.mem_append.mp h with h | h
        · rcases List.mem_append.mp h with h | h
          · exact Or.inl (natChars_all_digits _ _ (List.mem_of_mem_take h))
          · simp at h; exact Or.inr (Or.inr (Or.inl h))
        · exact Or.inl (natChars_all_digits _ _ (List.mem_of_mem_drop h))

theorem no_slash_decToString (d : Dec) : '/' ∉ (decToString d).toList := by
  intro h
  rcases decToString_charset d '/' h with h' | h' | h' | h' <;> simp_all

/-- The EU date regex never matches a printed number. -/
theorem euTest_decToString (d : Dec) : euTest (decToString d) = false :=
  euTest_eq_false_of_no_slash (no_slash_decToString d)

/-! ## The comparator on numeric cells -/

/-- On two finite number cells the comparator takes its numeric branch and
returns `order * (a - b)` exactly. -/
theorem sortComparator_nm (order : Int) (x y : Int) :
    sortComparator order (nm x) (nm y) = .fin ⟨order * (x - y), 0⟩ := by
  have hx : euTest (jsToString (nm x)) = false := euTest_decToString _
  have hy : euTest (jsToString (nm y)) = false := euTest_decToString _
  unfold sortComparator
  simp only [show ((nm x == JsVal.undefined || nm x == JsVal.jsNull)) = false from rfl,
    show ((nm y == JsVal.undefined || nm y == JsVal.jsNull)) = false from rfl,
    Bool.false_eq_true, if_false]
  simp only [hx, hy, Bool.false_and, Bool.and_false, Bool.false_eq_true, if_false]
  simp only [show (!(parseFloatVal (nm x)).isNaN && (toNumberVal (nm x)).isFin
      && !(parseFloatVal (nm y)).isNaN && (toNumberVal (nm y)).isFin) = true from rfl, if_true]
  simp only [nm, parseFloatVal, JNum.sub, Dec.sub, JNum.mulInt, Dec.mulInt, JNum.fin.injEq,
    Dec.mk.injEq, pow_zero, mul_one, and_true]

/-- A pair of integers as a two-cell row. -/
def pairRow (p : Int × Int) : Row := [nm p.1, nm p.2]

def pairLeFst (p q : Int × Int) : Bool := decide (p.1 ≤ q.1)

def pairLeSnd (p q : Int × Int) : Bool := decide (p.2 ≤ q.2)

theorem rowLe_pairRow_fst (p q : Int × Int) :
    rowLe 1 0 (pairRow p) (pairRow q) = pairLeFst p q := by
  simp only [rowLe, pairRow, rowCell, pairLeFst]
  rw [show (([nm p.1, nm p.2] : Row).get? 0).getD .undefined = nm p.1 from rfl,
      show (([nm q.1, nm q.2] : Row).get? 0).getD .undefined = nm q.1 from rfl,
      sortComparator_nm]
  simp only [JNum.ltb, Dec.ltb, pow_zero, mul_one, one_mul]
  rw [← decide_not, decide_eq_decide]
  omega

theorem rowLe_pairRow_snd (p q : Int × Int) :
    rowLe 1 1 (pairRow p) (pairRow q) = pairLeSnd p q := by
  simp only [rowLe, pairRow, rowCell, pairLeSnd]
  rw [show (([nm p.1, nm p.2] : Row).get? 1).getD .undefined = nm p.2 from rfl,
      show (([nm q.1, nm q.2] : Row).get? 1).getD .undefined = nm q.2 from rfl,
      sortComparator_nm]
  simp only [JNum.ltb, Dec.ltb, pow_zero, mul_one, one_mul]
  rw [← decide_not, decide_eq_decide]
  omega

/-! ## Stability of repeated sorting: the later sort dominates, the
earlier sort breaks ties -/

section StableTwoSort

variable {α : Type} [DecidableEq α]

/-- In a `leA`-sorted word over the two values `{b, a}` with
`leA a b = false`, every `b` precedes every `a`. -/
theorem word_split {leA : α → α → Bool} (a b : α) (hab : leA a b = false) (hne : a ≠ b) :
    ∀ w : List α, w.Pairwise (fun x y => leA x y = true) → (∀ x ∈ w, x = a ∨ x = b) →
      w = List.replicate (w.count b) b ++ List.replicate (w.count a) a := by
  intro w
  induction w with
  | nil => intro _ _; simp
  | cons x t ih =>
    intro hp hm
    have hpt := List.pairwise_cons.mp hp
    rcases hm x (List.mem_cons_self x t) with rfl | rfl
    · -- head is `a`: the tail can contain no `b`
      have ht : ∀ y ∈ t, y = x := by
        intro y hy
        rcases hm y (List.mem_cons_of_mem _ hy) with rfl | rfl
        · rfl
        · exact absurd (hpt.1 y hy) (by rw [hab]; simp)
      have hbt : b ∉ t := fun hb => hne (ht b hb).symm
      have hxt : t = List.replicate (t.count x) x := by
        have := ih hpt.2 (fun y hy => Or.inl (ht y hy))
        rwa [List.count_eq_zero.mpr hbt, List.replicate_zero, List.nil_append] at this
      have hcb : (x :: t).count b = 0 := by
        rw [List.count_eq_zero]
        simp only [List.mem_cons, not_or]
        exact ⟨fun h => hne h.symm, hbt⟩
      rw [hcb, List.replicate_zero, List.nil_append, List.count_cons_self,
        List.replicate_succ]
      exact congrArg (x :: ·) hxt
    · -- head is `b`
      have ht := ih hpt.2 (fun y hy => hm y (List.mem_cons_of_mem _ hy))
      rw [List.count_cons_self, List.count_cons_of_ne hne, List.replicate_succ,
        List.cons_append]
      exact congrArg (x :: ·) ht

theorem two_val_length (a b : α) (hne : a ≠ b) :
    ∀ w : List α, (∀ x ∈ w, x = a ∨ x = b) → w.length = w.count a + w.count b := by
  intro w
  induction w with
  | nil => simp
  | cons x t ih =>
    intro hm
    have ht := ih (fun y hy => hm y (List.mem_cons_of_mem _ hy))
    rcases hm x (List.mem_cons_self x t) with rfl | rfl
    · rw [List.length_cons, List.count_cons_self, List.count_cons_of_ne (Ne.symm hne), ht]
      omega
    · rw [List.length_cons, List.count_cons_self, List.count_cons_of_ne hne, ht]
      omega

omit [DecidableEq α] in
theorem pair_not_sublist_replicate (a b : α) (hne : a ≠ b) (m n : Nat) :
    ¬ List.Sublist [a, b] (List.replicate m b ++ List.replicate n a) := by
  induction m with
  | zero =>
    intro h
    simp only [List.replicate_zero, List.nil_append] at h
    have hbmem : b ∈ List.replicate n a := h.subset (by simp)
    exact hne (List.eq_of_mem_replicate hbmem).symm
  | succ m ih =>
    intro h
    rw [List.replicate_succ, List.cons_append] at h
    cases h with
    | cons _ h' => exact ih h'
    | cons₂ _ _ => exact hne rfl

/-- Stable two-pass sorting: re-sorting a `leA`-sorted list with a
stable `leB`-sort yields a list that is `leB`-sorted and, within every
`leB`-tie, still `leA`-sorted: the second key dominates, the first key
breaks ties. -/
theorem pairwise_two_sort {leA leB : α → α → Bool}
    (transA : ∀ a b c : α, leA a b → leA b c → leA a c)
    (totalA : ∀ a b : α, leA a b || leA b a)
    (transB : ∀ a b c : α, leB a b → leB b c → leB a c)
    (totalB : ∀ a b : α, leB a b || leB b a)
    (l : List α) :
    ((l.mergeSort leA).mergeSort leB).Pairwise
      (fun x y => leB x y = true ∧ (leB y x = true → leA x y = true)) := by
  have hM : (l.mergeSort leA).Pairwise (fun x y => leA x y = true) :=
    List.sorted_mergeSort transA totalA l
  have hF : ((l.mergeSort leA).mergeSort leB).Pairwise (fun x y => leB x y = true) :=
    List.sorted_mergeSort transB totalB (l.mergeSort leA)
  rw [List.pairwise_iff_forall_sublist]
  intro a b hsub
  refine ⟨List.pairwise_iff_forall_sublist.mp hF hsub, ?_⟩
  intro htie
  by_contra hA
  rw [Bool.not_eq_true] at hA
  have hne : a ≠ b := by
    intro h
    subst h
    have := totalA a a
    simp [hA] at this
  set M := l.mergeSort leA with hMdef
  set F := M.mergeSort leB with hFdef
  set P : α → Bool := fun x => x == a || x == b with hP
  set w := M.filter P with hw
  have hwmem : ∀ x ∈ w, x = a ∨ x = b := by
    intro x hx
    have := (List.mem_filter.mp hx).2
    simp only [hP, Bool.or_eq_true, beq_iff_eq] at this
    exact this
  have hwPair : w.Pairwise (fun x y => leA x y = true) := hM.filter P
  have hwEq : w = List.replicate (w.count b) b ++ List.replicate (w.count a) a :=
    word_split a b hA hne w hwPair hwmem
  have hwB : w.Pairwise (fun x y => leB x y = true) := by
    rw [hwEq, List.pairwise_append]
    refine ⟨?_, ?_, ?_⟩
    · rw [List.pairwise_replicate]
      right
      have := totalB b b
      simpa using this
    · rw [List.pairwise_replicate]
      right
      have := totalB a a
      simpa using this
    · intro x hx y hy
      rw [List.eq_of_mem_replicate hx, List.eq_of_mem_replicate hy]
      exact htie
  have hwF : List.Sublist w F := List.sublist_mergeSort transB totalB hwB (List.filter_sublist M)
  have hww' : List.Sublist w (F.filter P) := by
    have h1 := hwF.filter P
    rwa [hw, List.filter_filter, show ((fun x => P x && P x) : α → Bool) = P by
      funext x; cases P x <;> simp] at h1
  have hcount : ∀ x : α, P x = true → F.count x = M.count x := by
    intro x _
    exact ((List.mergeSort_perm M leB).count_eq x)
  have hw'mem : ∀ x ∈ F.filter P, x = a ∨ x = b := by
    intro x hx
    have := (List.mem_filter.mp hx).2
    simp only [hP, Bool.or_eq_true, beq_iff_eq] at this
    exact this
  have hPa : P a = true := by simp [hP]
  have hPb : P b = true := by simp [hP]
  have hlen : w.length = (F.filter P).length := by
    rw [two_val_length a b hne w hwmem, two_val_length a b hne _ hw'mem]
    rw [show List.count a w = List.count a M from List.count_filter hPa,
        show List.count b w = List.count b M from List.count_filter hPb,
        List.count_filter hPa, List.count_filter hPb,
        hcount a hPa, hcount b hPb]
  have hweq' : w = F.filter P := hww'.eq_of_length hlen
  have habw : List.Sublist [a, b] (F.filter P) := by
    have h1 := hsub.filter P
    rwa [show List.filter P [a, b] = [a, b] by simp [hP]] at h1
  rw [← hweq', hwEq] at habw
  exact pair_not_sublist_replicate a b hne _ _ habw

end StableTwoSort

/-! ## C1: right-to-left sort priority -/

theorem pairLeFst_trans : ∀ a b c : Int × Int, pairLeFst a b → pairLeFst b c → pairLeFst a c := by
  intro a b c
  simp only [pairLeFst, decide_eq_true_eq]
  omega

theorem pairLeFst_total : ∀ a b : Int × Int, pairLeFst a b || pairLeFst b a := by
  intro a b
  simp only [pairLeFst, Bool.or_eq_true, decide_eq_true_eq]
  omega

theorem pairLeSnd_trans : ∀ a b c : Int × Int, pairLeSnd a b → pairLeSnd b c → pairLeSnd a c := by
  intro a b c
  simp only [pairLeSnd, decide_eq_true_eq]
  omega

theorem pairLeSnd_total : ∀ a b : Int × Int, pairLeSnd a b || pairLeSnd b a := by
  intro a b
  simp only [pairLeSnd, Bool.or_eq_true, decide_eq_true_eq]
  omega

/-- Claim C1: right-to-left sort priority.  With the registry `reg2`
(columns `A`, `B` at ordinals 0 and 1, both `'ascending'`):
(i) for every record list, `sortRecords` applies one stable sort per
sorted column, iterating the sorting map in ordinal order — first the
ordinal-0 sort, then the ordinal-1 sort on its result;
(ii) consequently, on any list of two-cell numeric rows the result is
sorted primarily by the highest-ordinal column `B`, with the
lower-ordinal column `A` ordering rows only inside ties of `B`;
(iii) in particular, rows `[(1,2), (1,1), (2,1)]` sort to
`[(1,1), (2,1), (1,2)]`. -/
theorem sortRecords_right_to_left_priority :
    (∀ rows : List Row,
      sortRecords reg2 rows = .ok ((rows.mergeSort (rowLe 1 0)).mergeSort (rowLe 1 1)))
    ∧ (∀ l : List (Int × Int),
        sortRecords reg2 (l.map pairRow)
          = .ok (((l.mergeSort pairLeFst).mergeSort pairLeSnd).map pairRow)
        ∧ ((l.mergeSort pairLeFst).mergeSort pairLeSnd).Pairwise
            (fun p q => p.2 ≤ q.2 ∧ (p.2 = q.2 → p.1 ≤ q.1)))
    ∧ sortRecords reg2 [[nm 1, nm 2], [nm 1, nm 1], [nm 2, nm 1]]
        = .ok [[nm 1, nm 1], [nm 2, nm 1], [nm 1, nm 2]] := by
  refine ⟨fun _ => rfl, fun l => ⟨?_, ?_⟩, ?_⟩
  · have h1 : (l.mergeSort pairLeFst).map pairRow = (l.map pairRow).mergeSort (rowLe 1 0) :=
      List.map_mergeSort (fun a _ b _ => (rowLe_pairRow_fst a b).symm)
    have h2 : ((l.mergeSort pairLeFst).mergeSort pairLeSnd).map pairRow
        = ((l.mergeSort pairLeFst).map pairRow).mergeSort (rowLe 1 1) :=
      List.map_mergeSort (fun a _ b _ => (rowLe_pairRow_snd a b).symm)
    rw [show sortRecords reg2 (l.map pairRow)
        = .ok (((l.map pairRow).mergeSort (rowLe 1 0)).mergeSort (rowLe 1 1)) from rfl]
    rw [h2, h1]
  · have h := pairwise_two_sort pairLeFst_trans pairLeFst_total pairLeSnd_trans
      pairLeSnd_total l
    refine h.imp ?_
    intro p q hpq
    obtain ⟨h1, h2⟩ := hpq
    simp only [pairLeSnd, decide_eq_true_eq] at h1 h2
    simp only [pairLeFst, decide_eq_true_eq] at h2
    exact ⟨h1, fun he => h2 (by omega)⟩
  · simp +decide [sortRecords, sortRecordsGo, List.mergeSort, List.merge, JsMap.getm, reg2]

/-! ## C2: the single-column comparator -/

/-- Three-way sign of a JavaScript number comparison (`NaN` compares
neither way, giving `0`). -/
def jnCmpSgn (x y : JNum) : Int := if x.ltb y then -1 else if y.ltb x then 1 else 0

/-- Three-way sign of a case-sensitive string comparison. -/
def strCmpSgn (s t : String) : Int :=
  if strLtB s.toList t.toList then -1 else if strLtB t.toList s.toList then 1 else 0

/-- Three-way sign of the JavaScript relational operators `<` / `>`. -/
def jsRelCmpSgn (a b : JsVal) : Int :=
  if jsLtB a b then -1 else if jsLtB b a then 1 else 0

/-- "Parses as a finite number" exactly as the comparator tests it:
`!isNaN(parseFloat(v)) && isFinite(v)`. -/
def parsesAsFiniteNumber (v : JsVal) : Bool :=
  !(parseFloatVal v).isNaN && (toNumberVal v).isFin

/-- The comparator **as claim C2 states it** — identical to the code's
comparator except for step (4), which the claim words as "compares them as
case-sensitive strings returning 0 on equality". -/
def claimComparatorSgn (order : Int) (a0 b0 : JsVal) : Int :=
  let a := if a0 == .undefined || a0 == .jsNull then .str "" else a0
  let b := if b0 == .undefined || b0 == .jsNull then .str "" else b0
  if euTest (jsToString a) && euTest (jsToString b) then
    order * jnCmpSgn (jsDateParse (convertEuDateInIsoDate (jsToString a)))
      (jsDateParse (convertEuDateInIsoDate (jsToString b)))
  else if parsesAsFiniteNumber a && parsesAsFiniteNumber b then
    order * jnCmpSgn (parseFloatVal a) (parseFloatVal b)
  else order * strCmpSgn (jsToString a) (jsToString b)

/-- The comparator as **amended**: step (4) compares with the JavaScript
relational operators (string/string is case-sensitive lexicographic;
a mixed or `NaN` comparison is `false` both ways, giving `0`), and the
timestamp substitution of step (2) feeds steps (3)/(4). -/
def amendedComparatorSgn (order : Int) (a0 b0 : JsVal) : Int :=
  let a1 := if a0 == .undefined || a0 == .jsNull then .str "" else a0
  let b1 := if b0 == .undefined || b0 == .jsNull then .str "" else b0
  let bothEu := euTest (jsToString a1) && euTest (jsToString b1)
  let a2 := if bothEu then .num (jsDateParse (convertEuDateInIsoDate (jsToString a1))) else a1
  let b2 := if bothEu then .num (jsDateParse (convertEuDateInIsoDate (jsToString b1))) else b1
  if parsesAsFiniteNumber a2 && parsesAsFiniteNumber b2 then
    order * jnCmpSgn (parseFloatVal a2) (parseFloatVal b2)
  else order * jsRelCmpSgn a2 b2

/-- Claim C2, counterexample: at the cell values `0` (a number-typed cell's
defensive default) and `"abc"` (a text cell), sorted ascending, the code's
comparator returns `0`, but the claim's step (4) — case-sensitive string
comparison of `"0"` and `"abc"` — would be negative: the claim, as stated,
mis-describes the comparator. -/
theorem sortComparator_claim_counterexample :
    (sortComparator 1 (nm 0) (.str "abc")).sgn = 0
    ∧ claimComparatorSgn 1 (nm 0) (.str "abc") = -1
    ∧ (sortComparator 1 (nm 0) (.str "abc")).sgn
        ≠ claimComparatorSgn 1 (nm 0) (.str "abc") := by
  refine ⟨by decide, by decide, by decide⟩

theorem null_repl_ne_undef (v : JsVal) :
    (if v == .undefined || v == .jsNull then JsVal.str "" else v) ≠ .undefined := by
  cases v <;> simp

theorem sign_sub_eq (u v : Int) :
    (u - v).sign = if u < v then -1 else if v < u then (1 : Int) else 0 := by
  rcases lt_trichotomy u v with h | h | h
  · rw [if_pos h]
    exact Int.sign_eq_neg_one_iff_neg.mpr (by omega)
  · subst h
    simp
  · rw [if_neg (by omega), if_pos h]
    exact Int.sign_eq_one_iff_pos.mpr (by omega)

theorem sgn_mulInt_sub (order : Int) (h : order = 1 ∨ order = -1) (x y : JNum) :
    (JNum.mulInt order (x.sub y)).sgn = order * jnCmpSgn x y := by
  have hsgn : ∀ z : Int, Int.sign (order * z) = order * Int.sign z := by
    intro z
    rw [Int.sign_mul]
    rcases h with rfl | rfl <;> simp
  cases x <;> cases y <;>
    simp only [JNum.sub, JNum.mulInt, JNum.sgn, Dec.mulInt, Dec.sub, Dec.sgn, jnCmpSgn,
      JNum.ltb, Dec.ltb, mul_zero, decide_eq_true_eq] <;>
    first
    | (rw [hsgn, sign_sub_eq])
    | (rcases h with rfl | rfl <;> simp [JNum.sgn, jnCmpSgn, JNum.ltb])

/-- Claim C2, amended: for every pair of cell values and either sort
direction, the comparator's sign is: (1) `null`/`undefined` become `""`;
(2) if both (stringified) values match the EU date/time pattern, both are
replaced by the timestamps parsed from their ISO conversions; then (3) if
both values parse as finite numbers (`!isNaN(parseFloat(v)) &&
isFinite(v)`), they compare numerically; (4) otherwise they compare by the
JavaScript relational operators — case-sensitive lexicographic on two
strings, `0` whenever neither `<` nor `>` holds (mixed number/string and
`NaN` comparisons) — and (5) the result is multiplied by `+1` for
ascending, `-1` for descending. -/
theorem comparatorTail_sgn (order : Int) (h : order = 1 ∨ order = -1)
    (x y : JsVal) (hx : x ≠ .undefined) (hy : y ≠ .undefined) :
    (if !(parseFloatVal x).isNaN
        && ((toNumberVal x).isFin && (!(parseFloatVal y).isNaN && (toNumberVal y).isFin)) then
       JNum.mulInt order ((parseFloatVal x).sub (parseFloatVal y))
     else if x != .undefined && y != .undefined then
       (if jsLtB x y then JNum.fin ⟨order * (-1), 0⟩
        else if jsLtB y x then JNum.fin ⟨order * 1, 0⟩ else JNum.fin ⟨0, 0⟩)
     else JNum.fin ⟨0, 0⟩).sgn
    = (if !(parseFloatVal x).isNaN
          && ((toNumberVal x).isFin && (!(parseFloatVal y).isNaN && (toNumberVal y).isFin)) then
        order * jnCmpSgn (parseFloatVal x) (parseFloatVal y)
      else order * jsRelCmpSgn x y) := by
  simp only [jsRelCmpSgn]
  have hg : (x != JsVal.undefined && y != JsVal.undefined) = true := by
    simp only [Bool.and_eq_true, bne_iff_ne]
    exact ⟨hx, hy⟩
  rw [if_pos hg]
  split_ifs with h1 h2 h3
  · exact sgn_mulInt_sub order h _ _
  · rcases h with rfl | rfl <;> decide
  · rcases h with rfl | rfl <;> decide
  · rcases h with rfl | rfl <;> decide

theorem sortComparator_amended_semantics (order : Int) (h : order = 1 ∨ order = -1)
    (a b : JsVal) :
    (sortComparator order a b).sgn = amendedComparatorSgn order a b := by
  have hne1 : ∀ (c : Bool) (n : JNum) (v : JsVal),
      (if c then JsVal.num n else (if v == .undefined || v == .jsNull then JsVal.str "" else v))
        ≠ .undefined := by
    intro c n v
    cases c
    · simpa using null_repl_ne_undef v
    · simp
  unfold sortComparator amendedComparatorSgn
  simp only [parsesAsFiniteNumber, Bool.and_assoc]
  exact comparatorTail_sgn order h _ _ (hne1 _ _ _) (hne1 _ _ _)

/-- Witness for the amended comparator theorem at a concrete input. -/
theorem sortComparator_amended_semantics_witness :
    ((1 : Int) = 1 ∨ (1 : Int) = -1)
    ∧ (sortComparator 1 (.str "b") (.str "a")).sgn
        = amendedComparatorSgn 1 (.str "b") (.str "a") :=
  ⟨Or.inl rfl, sortComparator_amended_semantics 1 (Or.inl rfl) (.str "b") (.str "a")⟩

/-! ## C6: defensive normalization defaults -/

/-- The boolean-stringification prefix step of `_parseDataPoint`. -/
def jsStringifyBool : JsVal → JsVal
  | .bool b => .str (cond b "true" "false")
  | v => v

/-- Claim C6: `_parseDataPoint` first stringifies booleans to
`"true"`/`"false"`; then a missing/falsy (stringified) value yields `0`
for a `number` cell, `"false"` for a `boolean` cell and `"-"` for every
other type, while a present truthy value of any non-`eu_date` type is
returned unchanged. -/
theorem parseDataPoint_defensive_defaults (v : JsVal) (t : String) :
    (jsTruthy (jsStringifyBool v) = false →
      parseDataPoint v t = (if t == "number" then .num (.fin ⟨0, 0⟩)
        else if t == "boolean" then .str "false" else .str "-"))
    ∧ (jsTruthy (jsStringifyBool v) = true → t ≠ "eu_date" →
      parseDataPoint v t = jsStringifyBool v)
    ∧ parseDataPoint v t = parseDataPoint (jsStringifyBool v) t := by
  refine ⟨fun hf => ?_, fun ht hne => ?_, ?_⟩
  · cases v <;>
      · simp only [jsStringifyBool] at hf
        simp [parseDataPoint, hf]
  · cases v <;>
      · simp only [jsStringifyBool] at ht ⊢
        simp [parseDataPoint, ht, show (t == "eu_date") = false from by
          rw [beq_eq_false_iff_ne]; exact hne]
  · cases v <;> rfl

/-- Witness: a missing (`undefined`) raw value in a `number`-typed cell
parses to the number `0`. -/
theorem parseDataPoint_defensive_defaults_witness :
    jsTruthy (jsStringifyBool .undefined) = false
    ∧ parseDataPoint .undefined "number" = .num (.fin ⟨0, 0⟩) := by
  refine ⟨by decide, ?_⟩
  have h := (parseDataPoint_defensive_defaults .undefined "number").1 (by decide)
  simpa using h

/-! ## C7: EU/ISO date normalization -/

theorem mem_isoCoreR_suffix {cs : List Char} :
    ∀ p ∈ isoCoreR cs, p.2 <:+ cs := by
  unfold isoCoreR
  apply mem_seqR_suffix
  apply mem_seqR_suffix
  apply mem_seqR_suffix
  apply mem_seqR_suffix
  · exact fun q hq => mem_exact4R_suffix hq
  · exact fun r w hw => mem_litR_suffix hw
  · exact fun r w hw => mem_d12R_suffix hw
  · exact fun r w hw => mem_litR_suffix hw
  · exact fun r w hw => mem_d12R_suffix hw

/-- A successful ISO date-time match contains a literal `T`. -/
theorem isoDateTimeR_T {cs : List Char} {p : List Char × List Char}
    (h : p ∈ isoDateTimeR cs) : 'T' ∈ cs := by
  unfold isoDateTimeR at h
  obtain ⟨q1, hq1, w1, _, -⟩ := mem_seqR.mp h
  obtain ⟨q2, hq2, w2, hw2, -⟩ := mem_seqR.mp hq1
  obtain ⟨r, hr, -⟩ := mem_litR hw2
  exact (mem_isoCoreR_suffix q2 hq2).subset (by rw [hr]; exact List.mem_cons_self _ _)

/-- A string without a `T` never passes the ISO date-time test. -/
theorem isoDateTimeTest_false_of_no_T {cs : List Char} (h : 'T' ∉ cs) :
    scanTestR isoDateTimeR cs = false := by
  unfold scanTestR
  rw [scanFirstR_eq_none, Option.isSome_none]
  intro t ht
  by_contra hne
  obtain ⟨p, hp⟩ := List.exists_mem_of_ne_nil _ hne
  exact h (ht.subset (isoDateTimeR_T hp))

/-- Claim C7: EU/ISO date normalization.  Under the `eu_date` value type:
(i) a value already matching the EU date pattern is returned unchanged;
(ii) a well-formed ISO date `YYYY-MM-DD` (arbitrary digits, so in
particular `"2023-05-07"`) is converted to `DD/MM/YYYY` with the
day/month/year digit groups copied verbatim — order preserved, no
leading-zero stripping. -/
theorem parseDataPoint_euDate_iso_conversion :
    (∀ s : String, euTest s = true → parseDataPoint (.str s) "eu_date" = .str s)
    ∧ (∀ c1 c2 c3 c4 c5 c6 c7 c8 : Char,
        c1.isDigit = true → c2.isDigit = true → c3.isDigit = true → c4.isDigit = true →
        c5.isDigit = true → c6.isDigit = true → c7.isDigit = true → c8.isDigit = true →
        parseDataPoint (.str (String.mk [c1, c2, c3, c4, '-', c5, c6, '-', c7, c8])) "eu_date"
          = .str (String.mk [c7, c8, '/', c5, c6, '/', c1, c2, c3, c4])) := by
  constructor
  · intro s hs
    have hne : s ≠ "" := by
      rintro rfl
      rw [show euTest "" = false from rfl] at hs
      exact absurd hs (by simp)
    simp [parseDataPoint, jsTruthy, jsToString, hs, hne]
  · intro c1 c2 c3 c4 c5 c6 c7 c8 h1 h2 h3 h4 h5 h6 h7 h8
    have hd : ∀ c : Char, c.isDigit = true → (c == '-') = false := by
      intro c hc
      rw [beq_eq_false_iff_ne]
      rintro rfl
      exact absurd hc (by decide)
    have hds : ∀ c : Char, c.isDigit = true → c ≠ '/' := by
      intro c hc
      rintro rfl
      exact absurd hc (by decide)
    have hdT : ∀ c : Char, c.isDigit = true → c ≠ 'T' := by
      intro c hc
      rintro rfl
      exact absurd hc (by decide)
    have hnoSlash : '/' ∉ [c1, c2, c3, c4, '-', c5, c6, '-', c7, c8] := by
      simp only [List.mem_cons, not_or]
      refine ⟨?_, ?_, ?_, ?_, ?_, ?_, ?_, ?_, ?_, ?_, by simp⟩ <;>
        first
        | (intro he; exact hds _ (by assumption) he.symm)
        | decide
    have hnoT : 'T' ∉ [c1, c2, c3, c4, '-', c5, c6, '-', c7, c8] := by
      simp only [List.mem_cons, not_or]
      refine ⟨?_, ?_, ?_, ?_, ?_, ?_, ?_, ?_, ?_, ?_, by simp⟩ <;>
        first
        | (intro he; exact hdT _ (by assumption) he.symm)
        | decide
    have heu : euTest (String.mk [c1, c2, c3, c4, '-', c5, c6, '-', c7, c8]) = false :=
      euTest_eq_false_of_no_slash hnoSlash
    have hTtest : scanTestR isoDateTimeR [c1, c2, c3, c4, '-', c5, c6, '-', c7, c8] = false :=
      isoDateTimeTest_false_of_no_T hnoT
    simp only [parseDataPoint, jsToString, heu, Bool.false_eq_true, if_false,
      show (("eu_date" == "eu_date") : Bool) = true from rfl, if_true]
    rw [show jsTruthy (.str (String.mk [c1, c2, c3, c4, '-', c5, c6, '-', c7, c8]))
        = true from rfl]
    simp only [if_true]
    unfold convertIsoDateInEuDate
    simp only [jsToString, String.toList, hTtest, Bool.false_eq_true, if_false]
    simp only [scanFirstR, isoCoreR, exact4R, takeExactDigits, seqR, litR, d12R,
      h1, h2, h3, h4, h5, h6, h7, h8, hd _ h1, hd _ h2, hd _ h3, hd _ h4, hd _ h5,
      hd _ h6, hd _ h7, hd _ h8, if_true, if_false, List.flatMap, List.map,
      splitOnDash]
    simp [splitOnDash, hd _ h5, hd _ h6, hd _ h7, hd _ h8, hd _ h1, hd _ h2, hd _ h3,
      hd _ h4]

/-- Witness: the ISO date `"2023-05-07"` normalizes to `"07/05/2023"`
under `eu_date` (and an already-EU value such as `"07/05/2023"` is left
unchanged). -/
theorem parseDataPoint_euDate_iso_conversion_witness :
    euTest "07/05/2023" = true
    ∧ parseDataPoint (.str "07/05/2023") "eu_date" = .str "07/05/2023"
    ∧ parseDataPoint (.str "2023-05-07") "eu_date" = .str "07/05/2023" := by
  refine ⟨by decide, parseDataPoint_euDate_iso_conversion.1 "07/05/2023" (by decide), ?_⟩
  have h := parseDataPoint_euDate_iso_conversion.2 '2' '0' '2' '3' '0' '5' '0' '7'
    (by decide) (by decide) (by decide) (by decide) (by decide) (by decide) (by decide)
    (by decide)
  exact h

/-! ## C3: filter semantics -/

theorem jsStrIncludes_empty (s : String) : jsStrIncludes s "" = true := by
  simp [jsStrIncludes, List.nil_infix]

theorem jsToStringChecked_ok {v : JsVal} (h1 : v ≠ .undefined) (h2 : v ≠ .jsNull) :
    jsToStringChecked v = .ok (jsToString v) := by
  cases v <;> simp_all [jsToStringChecked]

theorem filterArr_ok {p : Row → Except String Bool} {f : Row → Bool} :
    ∀ {l : List Row}, (∀ r ∈ l, p r = .ok (f r)) → filterArr p l = .ok (l.filter f) := by
  intro l
  induction l with
  | nil => intro _; rfl
  | cons r rs ih =>
    intro h
    have hr := h r (List.mem_cons_self r rs)
    have ht := ih fun x hx => h x (List.mem_cons_of_mem r hx)
    simp only [filterArr, hr, ht, List.filter_cons]
    cases hf : f r <;> simp [hf, Bind.bind, Except.bind, Pure.pure, Except.pure]

/-- The per-column filter predicate, as the spec states it (cell
stringified, lower-cased, containing the lower-cased filter text). -/
def colFilterPass (maps : VarMaps) (e : String × String) (r : Row) : Bool :=
  jsStrIncludes (jsToLower (jsToString (rowCell r ((maps.index.getm e.1).getD 0))))
    (jsToLower e.2)

/-- A row passes all active column filters (an empty filter text excludes
no rows). -/
def passesFilters (maps : VarMaps) (r : Row) : Bool :=
  maps.filtering.all fun e => e.2 == "" || colFilterPass maps e r

theorem list_all_congr {α : Type} {l : List α} {p q : α → Bool}
    (h : ∀ a ∈ l, p a = q a) : l.all p = l.all q := by
  induction l with
  | nil => rfl
  | cons a t ih =>
    simp only [List.all_cons, h a (List.mem_cons_self a t)]
    rw [ih fun x hx => h x (List.mem_cons_of_mem a hx)]

theorem filterRecordsGo_ok (maps : VarMaps) :
    ∀ (entries : List (String × String)) (records : List Row),
    (∀ e ∈ entries, e.1 ≠ "" ∧ (maps.index.getm e.1).isSome) →
    (∀ e ∈ entries, ∀ i : Nat, maps.index.getm e.1 = some i →
      ∀ r ∈ records, rowCell r i ≠ .undefined ∧ rowCell r i ≠ .jsNull) →
    filterRecordsGo maps entries records
      = .ok (records.filter (fun r => entries.all (fun e => colFilterPass maps e r))) := by
  intro entries
  induction entries with
  | nil =>
    intro records _ _
    simp [filterRecordsGo, List.filter_true]
  | cons e rest ih =>
    intro records hidx hcell
    obtain ⟨hne, hsome⟩ := hidx e (List.mem_cons_self e rest)
    obtain ⟨i, hi⟩ := Option.isSome_iff_exists.mp hsome
    have hvi : (if e.1 != "" then maps.index.getm e.1 else none) = some i := by
      rw [if_pos (by rwa [bne_iff_ne]), hi]
    have hstep : filterArr (filterPred (if e.1 != "" then maps.index.getm e.1 else none)
        (jsToLower e.2)) records = .ok (records.filter (colFilterPass maps e)) := by
      apply filterArr_ok
      intro r hr
      obtain ⟨hu, hn⟩ := hcell e (List.mem_cons_self e rest) i hi r hr
      simp only [filterPred, hvi, show (e.1 != "") = true from by rwa [bne_iff_ne],
        if_true, jsToStringChecked_ok hu hn, Except.map, colFilterPass, hi,
        Option.getD_some]
    have hrest := ih (records.filter (colFilterPass maps e))
      (fun x hx => hidx x (List.mem_cons_of_mem e hx))
      (fun x hx i' hi' r hr => hcell x (List.mem_cons_of_mem e hx) i' hi' r
        (List.mem_of_mem_filter hr))
    simp only [filterRecordsGo, hstep, Bind.bind, Except.bind, hrest, List.filter_filter]
    congr 1
    apply List.filter_congr
    intro r _
    simp [List.all_cons, Bool.and_comm]

/-- Claim C3: filter phase semantics: provided every filtering entry's
column UID is registered in the index map and every row's cells
stringify (are not `undefined`/`null`), `filterRecords` keeps exactly the
rows that pass every column filter — the per-column predicates compose by
logical AND, and a column whose filter text is empty excludes no rows. -/
theorem filterRecords_and_composition (maps : VarMaps) (records : List Row)
    (hidx : ∀ e ∈ maps.filtering, e.1 ≠ "" ∧ (maps.index.getm e.1).isSome)
    (hcell : ∀ e ∈ maps.filtering, ∀ i : Nat, maps.index.getm e.1 = some i →
      ∀ r ∈ records, rowCell r i ≠ .undefined ∧ rowCell r i ≠ .jsNull) :
    filterRecords maps records = .ok (records.filter (passesFilters maps)) := by
  rw [show filterRecords maps records = filterRecordsGo maps maps.filtering records from rfl,
    filterRecordsGo_ok maps maps.filtering records hidx hcell]
  congr 1
  apply List.filter_congr
  intro r _
  unfold passesFilters
  apply list_all_congr
  intro e _
  cases hb : (e.2 == "") with
  | false => simp
  | true =>
    rw [beq_iff_eq] at hb
    simp [hb, colFilterPass, jsToLower, jsStrIncludes_empty]

/-- A two-column registry with filter texts `"AB"` on `X` and `"cd"` on `Y`. -/
def regXY : VarMaps :=
  { uids := [("X", "x"), ("Y", "y")]
    reverseUids := [("x", "X"), ("y", "Y")]
    index := [("X", 0), ("Y", 1)]
    reverseIndex := [(0, "X"), (1, "Y")]
    types := [("X", "text"), ("Y", "text")]
    sorting := [("X", "none"), ("Y", "none")]
    filtering := [("X", "AB"), ("Y", "cd")]
    defaultOrder := [("X", "none"), ("Y", "none")] }

def rowsXY : List Row := [[.str "xAby", .str "1CD2"], [.str "ab", .str "zz"]]

/-- Witness: with filters `"AB"` and `"cd"`, only the row whose X-cell
contains `"ab"` AND whose Y-cell contains `"cd"` (case-insensitively)
survives. -/
theorem filterRecords_and_composition_witness :
    (∀ e ∈ regXY.filtering, e.1 ≠ "" ∧ (JsMap.getm regXY.index e.1).isSome)
    ∧ filterRecords regXY rowsXY = .ok (rowsXY.filter (passesFilters regXY))
    ∧ rowsXY.filter (passesFilters regXY) = [[.str "xAby", .str "1CD2"]] := by
  have hidx : ∀ e ∈ regXY.filtering, e.1 ≠ "" ∧ (JsMap.getm regXY.index e.1).isSome := by
    decide
  have hcell : ∀ e ∈ regXY.filtering, ∀ i : Nat, JsMap.getm regXY.index e.1 = some i →
      ∀ r ∈ rowsXY, rowCell r i ≠ .undefined ∧ rowCell r i ≠ .jsNull := by
    intro e he i hi r hr
    rcases List.mem_pair.mp he with rfl | rfl <;>
      · simp only [regXY, JsMap.getm, List.find?, Option.map] at hi
        simp only [show ((("X", "AB") : String × String).1 == "X") = true from rfl,
          show ((("X", "AB") : String × String).1 == "Y") = false from rfl,
          show ((("Y", "cd") : String × String).1 == "X") = false from rfl,
          show ((("Y", "cd") : String × String).1 == "Y") = true from rfl] at hi
        rcases List.mem_pair.mp hr with rfl | rfl <;> (cases hi; decide)
  exact ⟨hidx, filterRecords_and_composition regXY rowsXY hidx hcell, by decide⟩

/-! ## C9: `sortRecords`/`filterRecords` never mutate their argument -/

theorem readA_writeA_ne (st : Store) (r q : Nat) (v : List Row) (h : q ≠ r) :
    (st.writeA r v).readA q = st.readA q := by
  simp only [Store.writeA, Store.readA]
  rw [List.getElem?_set_ne (fun he => h he.symm)]

theorem readA_allocA (st : Store) (v : List Row) (q : Nat) (h : q < st.arrs.length) :
    (st.allocA v).1.readA q = st.readA q := by
  simp only [Store.allocA, Store.readA]
  rw [List.getElem?_append_left h]

theorem sortRecordsRefGo_preserve (maps : VarMaps) :
    ∀ (entries : List (String × String)) (st : Store) (ref q : Nat), q ≠ ref →
    ∀ st', sortRecordsRefGo maps entries st ref = .ok st' →
    st'.readA q = st.readA q := by
  intro entries
  induction entries with
  | nil =>
    intro st ref q hq st' h
    simp only [sortRecordsRefGo] at h
    cases h
    rfl
  | cons e rest ih =>
    intro st ref q hq st' h
    simp only [sortRecordsRefGo] at h
    split at h
    · split at h
      · have := ih _ ref q hq st' h
        rw [this, readA_writeA_ne _ _ _ _ hq]
      · cases h
    · exact ih st ref q hq st' h

theorem filterRecordsRefGo_preserve (maps : VarMaps) :
    ∀ (entries : List (String × String)) (st : Store) (ref q : Nat),
    q < st.arrs.length → q ≠ ref →
    ∀ st' r', filterRecordsRefGo maps entries st ref = .ok (st', r') →
    st'.readA q = st.readA q ∧ q ≠ r' := by
  intro entries
  induction entries with
  | nil =>
    intro st ref q _ hq st' r' h
    simp only [filterRecordsRefGo] at h
    cases h
    exact ⟨rfl, hq⟩
  | cons e rest ih =>
    intro st ref q hlen hq st' r' h
    simp only [filterRecordsRefGo, Bind.bind, Except.bind] at h
    cases hfa : filterArr (filterPred (if e.1 != "" then maps.index.getm e.1 else none)
        (jsToLower e.2)) (st.readA ref) with
    | error msg => rw [hfa] at h; cases h
    | ok fr =>
      rw [hfa] at h
      have hrec := ih (st.allocA fr).1 (st.allocA fr).2 q
        (by simp [Store.allocA]; omega) (by simp [Store.allocA]; omega) st' r' h
      exact ⟨hrec.1.trans (readA_allocA st fr q hlen), hrec.2⟩

/-- Claim C9: recompute does not mutate its input: in the heap model, both
`sortRecords` and `filterRecords` copy their `records` argument into a
fresh array (`Object.assign([], records)` / `Array.prototype.filter`) and
only ever write that fresh array, so on success the returned reference is
new and the array at the argument's reference — for instance
`this.dataSet` — is unchanged, in length and element order. -/
theorem sort_filter_records_do_not_mutate_input (maps : VarMaps) (st : Store) (r : Nat)
    (hr : r < st.arrs.length) :
    (∀ st' r', sortRecordsRef maps st r = .ok (st', r') →
      r' ≠ r ∧ st'.readA r = st.readA r)
    ∧ (∀ st' r', filterRecordsRef maps st r = .ok (st', r') →
      r' ≠ r ∧ st'.readA r = st.readA r) := by
  constructor
  · intro st' r' h
    simp only [sortRecordsRef, Except.map] at h
    cases hgo : sortRecordsRefGo maps maps.sorting (st.allocA (st.readA r)).1
        (st.allocA (st.readA r)).2 with
    | error msg => rw [hgo] at h; cases h
    | ok st2 =>
      rw [hgo] at h
      cases h
      refine ⟨by simp [Store.allocA]; omega, ?_⟩
      have h1 := sortRecordsRefGo_preserve maps maps.sorting _ _ r
        (by simp [Store.allocA]; omega) _ hgo
      rw [h1, readA_allocA st _ r hr]
  · intro st' r' h
    simp only [filterRecordsRef] at h
    have h2 := filterRecordsRefGo_preserve maps maps.filtering _ _ r
      (by simp [Store.allocA]; omega) (by simp [Store.allocA]; omega) st' r' h
    exact ⟨fun he => h2.2 he.symm, h2.1.trans (readA_allocA st _ r hr)⟩

/-- Witness: on a one-array store holding two rows under `regOne`, both
operations succeed, return a fresh reference, and leave the original
array intact. -/
theorem sort_filter_records_do_not_mutate_input_witness :
    (0 < (Store.mk [tenRows]).arrs.length)
    ∧ (∀ st' r', sortRecordsRef regOne (Store.mk [tenRows]) 0 = .ok (st', r') →
        r' ≠ 0 ∧ st'.readA 0 = (Store.mk [tenRows]).readA 0)
    ∧ sortRecordsRef regOne (Store.mk [tenRows]) 0
        = .ok (Store.mk [tenRows, tenRows], 1) :=
  ⟨by decide,
   (sort_filter_records_do_not_mutate_input regOne (Store.mk [tenRows]) 0 (by decide)).1,
   by decide⟩
